import Mathlib

/-!
Verification of the ArTypes linear-algebra kernel (3D vector, quaternion,
3x3 matrix) against its specification.

The embedding below translates the C++ sources (vector.cpp, quaternion.cpp,
matrix.cpp and their headers) into Lean definitions.  Floating-point
arithmetic is modelled two ways:

* an exact model over the reals, used for the algebraic and conversion
  claims (the spec phrases them as exact-arithmetic / within-tolerance
  properties);
* a special-value model over the rationals (with separate Inf, -Inf and
  NaN constructors) for the claims that are specifically about IEEE-754
  non-finite propagation and NaN comparison semantics, where no rounding
  is involved.
-/

namespace ArTypes

noncomputable section RealModel

/-- cst::sqr from def.h: the square of a number. -/
def sqr (f : ℝ) : ℝ := f * f

/-- The Vector class of vector.h: three components x, y, z. The default
constructor gives the zero vector. -/
@[ext]
structure Vector where
  x : ℝ
  y : ℝ
  z : ℝ

namespace Vector

/-- Vector::normSqr from vector.cpp. -/
def normSqr (v : Vector) : ℝ := sqr v.x + sqr v.y + sqr v.z

/-- Vector::norm from vector.cpp: sqrtf of normSqr. -/
def norm (v : Vector) : ℝ := Real.sqrt v.normSqr

/-- Vector::dot from vector.cpp: x * rhs.x + y * rhs.y (the z product is
absent in the source). -/
def dot (v rhs : Vector) : ℝ := v.x * rhs.x + v.y * rhs.y

/-- Vector::operator/(float) from vector.cpp: componentwise division. -/
def divScalar (v : Vector) (n : ℝ) : Vector :=
  { x := v.x / n, y := v.y / n, z := v.z / n }

/-- Vector::normalised from vector.cpp: *this / norm(). -/
def normalised (v : Vector) : Vector := v.divScalar v.norm

end Vector

/-- The Quaternion class of quaternion.h: scalar part w and vector part
(x, y, z). -/
@[ext]
structure Quaternion where
  w : ℝ
  x : ℝ
  y : ℝ
  z : ℝ

namespace Quaternion

/-- The default-constructed Quaternion(): the header's unity quaternion
w=1, x=y=z=0. -/
def unity : Quaternion := { w := 1, x := 0, y := 0, z := 0 }

/-- Quaternion::normSqr from quaternion.cpp. -/
def normSqr (q : Quaternion) : ℝ := sqr q.w + sqr q.x + sqr q.y + sqr q.z

/-- Quaternion::norm from quaternion.cpp. -/
def norm (q : Quaternion) : ℝ := Real.sqrt q.normSqr

/-- Quaternion::operator/(float) from quaternion.cpp. -/
def divScalar (q : Quaternion) (n : ℝ) : Quaternion :=
  { w := q.w / n, x := q.x / n, y := q.y / n, z := q.z / n }

/-- Quaternion::normalised from quaternion.cpp: *this / norm(). -/
def normalised (q : Quaternion) : Quaternion := q.divScalar q.norm

/-- Quaternion::conjugate from quaternion.cpp. -/
def conjugate (q : Quaternion) : Quaternion :=
  { w := q.w, x := -q.x, y := -q.y, z := -q.z }

/-- Quaternion::operator- (unary) from quaternion.cpp. -/
def neg (q : Quaternion) : Quaternion :=
  { w := -q.w, x := -q.x, y := -q.y, z := -q.z }

/-- Quaternion::operator*(const Quaternion&) from quaternion.cpp, the
Hamilton product, transcribed term for term. -/
def mul (q rhs : Quaternion) : Quaternion :=
  { w := rhs.w * q.w - rhs.x * q.x - rhs.y * q.y - rhs.z * q.z
    x := rhs.w * q.x + rhs.x * q.w - rhs.y * q.z + rhs.z * q.y
    y := rhs.w * q.y + rhs.x * q.z + rhs.y * q.w - rhs.z * q.x
    z := rhs.w * q.z - rhs.x * q.y + rhs.y * q.x + rhs.z * q.w }

/-- Quaternion::set(size_t, float) from quaternion.cpp: index 0 selects w,
1 selects x, 2 selects y, 3 selects z, anything else is ignored. -/
def set (q : Quaternion) (idx : Nat) (value : ℝ) : Quaternion :=
  match idx with
  | 0 => { q with w := value }
  | 1 => { q with x := value }
  | 2 => { q with y := value }
  | 3 => { q with z := value }
  | _ => q

end Quaternion

/-- The Matrix3x3 class of matrix.h: nine components stored row-major,
field mRC holding the element at row R, column C. -/
@[ext]
structure Matrix3x3 where
  m00 : ℝ
  m01 : ℝ
  m02 : ℝ
  m10 : ℝ
  m11 : ℝ
  m12 : ℝ
  m20 : ℝ
  m21 : ℝ
  m22 : ℝ

namespace Matrix3x3

/-- The flat row-major storage of matrix.cpp: members[n]. Out-of-range
reads (which the C++ never performs on valid indices) default to 0. -/
def members (m : Matrix3x3) (n : Nat) : ℝ :=
  match n with
  | 0 => m.m00
  | 1 => m.m01
  | 2 => m.m02
  | 3 => m.m10
  | 4 => m.m11
  | 5 => m.m12
  | 6 => m.m20
  | 7 => m.m21
  | 8 => m.m22
  | _ => 0

/-- Matrix3x3::coeff from matrix.cpp: members[index(r, c)] with
index(r, c) = MATRIX_COLS * r + c = 3 * r + c. -/
def coeff (m : Matrix3x3) (r c : Nat) : ℝ := m.members (3 * r + c)

/-- Matrix3x3::trace from matrix.cpp. -/
def trace (m : Matrix3x3) : ℝ := m.coeff 0 0 + m.coeff 1 1 + m.coeff 2 2

/-- Matrix3x3::row from matrix.cpp. -/
def row (m : Matrix3x3) (idx : Nat) : Vector :=
  { x := m.members (3 * idx + 0)
    y := m.members (3 * idx + 1)
    z := m.members (3 * idx + 2) }

/-- Matrix3x3::col from matrix.cpp. -/
def col (m : Matrix3x3) (idx : Nat) : Vector :=
  { x := m.members (3 * 0 + idx)
    y := m.members (3 * 1 + idx)
    z := m.members (3 * 2 + idx) }

/-- Matrix3x3::fromVectors from matrix.cpp: rebuilds the whole matrix
from three vectors, as rows when the flag is true, as columns otherwise
(the boolean parameter is named row in the source). -/
def fromVectors (vx vy vz : Vector) (asRows : Bool) : Matrix3x3 :=
  if asRows then
    { m00 := vx.x, m01 := vx.y, m02 := vx.z
      m10 := vy.x, m11 := vy.y, m12 := vy.z
      m20 := vz.x, m21 := vz.y, m22 := vz.z }
  else
    { m00 := vx.x, m01 := vy.x, m02 := vz.x
      m10 := vx.y, m11 := vy.y, m12 := vz.y
      m20 := vx.z, m21 := vy.z, m22 := vz.z }

/-- Matrix3x3::identity from matrix.h. -/
def identity : Matrix3x3 :=
  { m00 := 1, m01 := 0, m02 := 0
    m10 := 0, m11 := 1, m12 := 0
    m20 := 0, m21 := 0, m22 := 1 }

/-- Matrix3x3::toQuaternion from matrix.cpp: trace-based formula followed
by normalisation of the result. -/
def toQuaternion (m : Matrix3x3) : Quaternion :=
  let w : ℝ := 0.5 * Real.sqrt (1 + m.trace)
  let w4 : ℝ := w * 4
  Quaternion.normalised
    { w := w
      x := (m.coeff 1 2 - m.coeff 2 1) / w4
      y := (m.coeff 2 0 - m.coeff 0 2) / w4
      z := (m.coeff 0 1 - m.coeff 1 0) / w4 }

end Matrix3x3

namespace Quaternion

/-- Quaternion::toRotationMatrix from quaternion.cpp, transcribed with the
source's intermediate terms (note: the source's t-terms carry no factor
of 2, unlike the commented-out RotationMatrix above it). -/
def toRotationMatrix (q : Quaternion) : Matrix3x3 :=
  let twx := q.x * q.w
  let twy := q.y * q.w
  let twz := q.z * q.w
  let txx := sqr q.x
  let txy := q.y * q.x
  let txz := q.z * q.x
  let tyy := sqr q.y
  let tyz := q.z * q.y
  let tzz := sqr q.z
  { m00 := 1 - (tyy + tzz), m01 := txy - twz, m02 := txz + twy
    m10 := txy + twz, m11 := 1 - (txx + tzz), m12 := tyz - twx
    m20 := txz - twy, m21 := tyz + twx, m22 := 1 - (txx + tyy) }

/-- Quaternion::fromMatrix from quaternion.cpp (Shoemake's branching
algorithm). The method mutates the receiver, so it is modelled as a
function of the initial quaternion state q0 and the matrix; the trace>0
branch assigns all four components, the other branch goes through
Quaternion::set with diagonal indices i, j, k in 0..2 and also assigns w
directly, in the source's statement order. -/
def fromMatrix (q0 : Quaternion) (mat : Matrix3x3) : Quaternion :=
  let t := mat.trace
  if 0 < t then
    let s := Real.sqrt (t + 1)
    let f := 0.5 / s
    { w := 0.5 * s
      x := (mat.coeff 2 1 - mat.coeff 1 2) * f
      y := (mat.coeff 0 2 - mat.coeff 2 0) * f
      z := (mat.coeff 1 0 - mat.coeff 0 1) * f }
  else
    let i : Nat := if mat.coeff 1 1 > mat.coeff 0 0 then 1 else 0
    let i : Nat := if mat.coeff 2 2 > mat.coeff i i then 2 else i
    let j : Nat := (i + 1) % 3
    let k : Nat := (j + 1) % 3
    let s := Real.sqrt (mat.coeff i i - mat.coeff j j - mat.coeff k k + 1)
    let q1 := q0.set i (0.5 * s)
    let f := 0.5 / s
    let q2 := { q1 with w := (mat.coeff k j - mat.coeff j k) * f }
    let q3 := q2.set j ((mat.coeff j i + mat.coeff i j) * f)
    q3.set k ((mat.coeff k i + mat.coeff i k) * f)

end Quaternion

/-- Componentwise closeness of two quaternions within an absolute
tolerance, as used by the spec's round-trip property. -/
def approxEq (a b : Quaternion) (eps : ℝ) : Prop :=
  |a.w - b.w| ≤ eps ∧ |a.x - b.x| ≤ eps ∧ |a.y - b.y| ≤ eps ∧ |a.z - b.z| ≤ eps

/-- Modelled from the spec: the standard quaternion-to-rotation-matrix
formula the spec describes for the Quaternion-to-Matrix direction
(diagonal terms 1 - 2(qj^2 + qk^2), off-diagonal terms 2(qi qj -+ w qk)).
It parametrises the orthonormal rotation matrices; the source's
toRotationMatrix drops the factors of 2. -/
def specRotationMatrix (q : Quaternion) : Matrix3x3 :=
  { m00 := 1 - 2 * (sqr q.y + sqr q.z)
    m01 := 2 * (q.x * q.y - q.w * q.z)
    m02 := 2 * (q.x * q.z + q.w * q.y)
    m10 := 2 * (q.x * q.y + q.w * q.z)
    m11 := 1 - 2 * (sqr q.x + sqr q.z)
    m12 := 2 * (q.y * q.z - q.w * q.x)
    m20 := 2 * (q.x * q.z - q.w * q.y)
    m21 := 2 * (q.y * q.z + q.w * q.x)
    m22 := 1 - 2 * (sqr q.x + sqr q.y) }

end RealModel

/-!
IEEE-754 special-value model: a float is either a finite value (held
exactly as a rational, so no rounding is modelled), positive or negative
infinity, or NaN. This model is used for the claims about non-finite
propagation and NaN comparison, whose behaviour does not depend on
rounding: division by zero, square root of zero, and the equality
operator on NaN follow the IEEE-754 rules exactly.
-/

/-- A single-precision value in the special-value model. -/
inductive FVal where
  | finite (q : ℚ)
  | inf
  | neginf
  | nan
deriving DecidableEq

namespace FVal

/-- IEEE-754 addition on special values; finite addition is exact. -/
def fadd : FVal → FVal → FVal
  | nan, _ => nan
  | _, nan => nan
  | inf, neginf => nan
  | neginf, inf => nan
  | inf, _ => inf
  | _, inf => inf
  | neginf, _ => neginf
  | _, neginf => neginf
  | finite a, finite b => finite (a + b)

/-- IEEE-754 multiplication on special values; finite multiplication is
exact. -/
def fmul : FVal → FVal → FVal
  | nan, _ => nan
  | _, nan => nan
  | inf, inf => inf
  | inf, neginf => neginf
  | neginf, inf => neginf
  | neginf, neginf => inf
  | inf, finite b => if b = 0 then nan else if 0 < b then inf else neginf
  | finite a, inf => if a = 0 then nan else if 0 < a then inf else neginf
  | neginf, finite b => if b = 0 then nan else if 0 < b then neginf else inf
  | finite a, neginf => if a = 0 then nan else if 0 < a then neginf else inf
  | finite a, finite b => finite (a * b)

/-- IEEE-754 division on special values: a nonzero finite value divided
by zero is a signed infinity, zero divided by zero is NaN (the model
carries a single unsigned zero, so the sign of the resulting infinity
follows the numerator alone). -/
def fdiv : FVal → FVal → FVal
  | nan, _ => nan
  | _, nan => nan
  | inf, inf => nan
  | inf, neginf => nan
  | neginf, inf => nan
  | neginf, neginf => nan
  | inf, finite b => if 0 ≤ b then inf else neginf
  | neginf, finite b => if 0 ≤ b then neginf else inf
  | finite _, inf => finite 0
  | finite _, neginf => finite 0
  | finite a, finite b =>
      if b = 0 then
        if a = 0 then nan else if 0 < a then inf else neginf
      else finite (a / b)

/-- sqrtf in the special-value model: NaN for negative arguments and for
NaN, infinity for infinity, and the rational square root otherwise (exact
on perfect squares; in particular the square root of zero is zero, which
is the only value the claims rely on away from perfect squares). -/
def fsqrt : FVal → FVal
  | nan => nan
  | inf => inf
  | neginf => nan
  | finite q => if q < 0 then nan else finite (Rat.sqrt q)

/-- The C++ float equality operator ==: NaN compares unequal to
everything, including itself; infinities compare equal to themselves;
finite comparison is exact. -/
def feq : FVal → FVal → Bool
  | finite a, finite b => a = b
  | inf, inf => true
  | neginf, neginf => true
  | _, _ => false

/-- True exactly on the finite values (false on Inf, -Inf and NaN). -/
def isFiniteVal : FVal → Bool
  | finite _ => true
  | _ => false

end FVal

/-- The Vector class in the special-value model, mirroring vector.h. -/
structure FVector where
  x : FVal
  y : FVal
  z : FVal
deriving DecidableEq

namespace FVector

/-- cst::sqr in the special-value model. -/
def fsqr (f : FVal) : FVal := f.fmul f

/-- Vector::normSqr in the special-value model, with the source's
left-to-right sum. -/
def normSqr (v : FVector) : FVal := ((fsqr v.x).fadd (fsqr v.y)).fadd (fsqr v.z)

/-- Vector::norm in the special-value model. -/
def norm (v : FVector) : FVal := v.normSqr.fsqrt

/-- Vector::operator/(float) in the special-value model. -/
def divScalar (v : FVector) (n : FVal) : FVector :=
  { x := v.x.fdiv n, y := v.y.fdiv n, z := v.z.fdiv n }

/-- Vector::normalised in the special-value model: *this / norm(). -/
def normalised (v : FVector) : FVector := v.divScalar v.norm

/-- Vector::setUndefined from vector.cpp: sets every component to NAN. -/
def setUndefined (_ : FVector) : FVector :=
  { x := FVal.nan, y := FVal.nan, z := FVal.nan }

/-- Vector::isNaN from vector.cpp: compares each component against the
NAN literal with the float == operator. -/
def isNaN (v : FVector) : Bool :=
  v.x.feq FVal.nan || v.y.feq FVal.nan || v.z.feq FVal.nan

end FVector

/-!
Helper lemmas shared by the theorems below.
-/

/-- The rational square root of zero is zero. -/
theorem ratSqrt_zero : Rat.sqrt 0 = 0 := by
  simp

/-- A positive rational has a nonzero Rat.sqrt. -/
theorem ratSqrt_ne_zero {s : ℚ} (hs : 0 < s) : Rat.sqrt s ≠ 0 := by
  rw [Rat.sqrt]
  have hden : Nat.sqrt s.den ≠ 0 := (Nat.sqrt_pos.mpr s.den_pos).ne'
  rw [Rat.mkRat_ne_zero hden]
  have hnum : 0 < s.num := Rat.num_pos.mpr hs
  have htn : 0 < s.num.toNat := by omega
  rw [Int.sqrt]
  intro h0
  have : Nat.sqrt s.num.toNat = 0 := by exact_mod_cast h0
  rw [Nat.sqrt_eq_zero] at this
  omega

/-- In the special-value model, a vector whose computed norm is exactly
zero has all three components equal to the finite value zero. -/
theorem norm_zero_components (x y z : ArTypes.FVal)
    (h : (ArTypes.FVector.mk x y z).norm = ArTypes.FVal.finite 0) :
    x = ArTypes.FVal.finite 0 ∧ y = ArTypes.FVal.finite 0 ∧
      z = ArTypes.FVal.finite 0 := by
  cases x <;> cases y <;> cases z <;>
    simp only [FVector.norm, FVector.normSqr, FVector.fsqr, FVal.fadd,
      FVal.fmul, FVal.fsqrt] at h ⊢
  all_goals try exact FVal.noConfusion h
  case finite.finite.finite a b c =>
    have hnn : (0 : ℚ) ≤ a * a + b * b + c * c :=
      add_nonneg (add_nonneg (mul_self_nonneg a) (mul_self_nonneg b))
        (mul_self_nonneg c)
    rw [if_neg (not_lt.mpr hnn)] at h
    have hs : Rat.sqrt (a * a + b * b + c * c) = 0 := by
      injection h
    have hsum : a * a + b * b + c * c = 0 := by
      by_contra hne
      exact ratSqrt_ne_zero (lt_of_le_of_ne hnn (Ne.symm hne)) hs
    refine ⟨?_, ?_, ?_⟩ <;> rw [FVal.finite.injEq]
    · have : a * a = 0 := by nlinarith [mul_self_nonneg b, mul_self_nonneg c]
      exact mul_self_eq_zero.mp this
    · have : b * b = 0 := by nlinarith [mul_self_nonneg a, mul_self_nonneg c]
      exact mul_self_eq_zero.mp this
    · have : c * c = 0 := by nlinarith [mul_self_nonneg a, mul_self_nonneg b]
      exact mul_self_eq_zero.mp this

/-- The real square root of four is two. -/
theorem sqrtFour : Real.sqrt 4 = 2 := by
  rw [show (4 : ℝ) = 2 ^ 2 by norm_num]
  exact Real.sqrt_sq (by norm_num)

/-- Normalising a quaternion whose squared norm is one is the identity
operation. -/
theorem normalised_of_normSqr_one (q : Quaternion) (h : q.normSqr = 1) :
    q.normalised = q := by
  unfold Quaternion.normalised Quaternion.norm
  rw [h, Real.sqrt_one]
  ext <;> simp [Quaternion.divScalar]

/-!
Claim theorems.
-/

/-- Claim C3: for every pair of vectors a and b, dot returns
a.x * b.x + a.y * b.y, summing only the x and y products and dropping the
z product, while norm uses all three components as
sqrt(x^2 + y^2 + z^2). -/
theorem C3_dot_drops_z_norm_uses_all_components (a b : Vector) :
    a.dot b = a.x * b.x + a.y * b.y ∧
      a.dot b = (a.x * b.x + a.y * b.y + a.z * b.z) - a.z * b.z ∧
      a.norm = Real.sqrt (a.x ^ 2 + a.y ^ 2 + a.z ^ 2) := by
  refine ⟨rfl, by simp [Vector.dot], ?_⟩
  unfold Vector.norm Vector.normSqr sqr
  congr 1
  ring

/-- Claim C5: for every quaternion q of unit norm, the Hamilton product
of q with its conjugate is the identity quaternion w=1, x=y=z=0. -/
theorem C5_unit_times_conjugate_is_identity (q : Quaternion)
    (h : q.normSqr = 1) : q.mul q.conjugate = Quaternion.unity := by
  have h' : q.w * q.w + q.x * q.x + q.y * q.y + q.z * q.z = 1 := by
    simpa [Quaternion.normSqr, sqr] using h
  ext
  · show q.conjugate.w * q.w - q.conjugate.x * q.x - q.conjugate.y * q.y -
      q.conjugate.z * q.z = 1
    simp only [Quaternion.conjugate]
    linear_combination h'
  · show q.conjugate.w * q.x + q.conjugate.x * q.w - q.conjugate.y * q.z +
      q.conjugate.z * q.y = 0
    simp only [Quaternion.conjugate]
    ring
  · show q.conjugate.w * q.y + q.conjugate.x * q.z + q.conjugate.y * q.w -
      q.conjugate.z * q.x = 0
    simp only [Quaternion.conjugate]
    ring
  · show q.conjugate.w * q.z - q.conjugate.x * q.y + q.conjugate.y * q.x +
      q.conjugate.z * q.w = 0
    simp only [Quaternion.conjugate]
    ring

/-- Witness for C5 at the concrete unit quaternion (3/5, 4/5, 0, 0). -/
theorem C5_unit_times_conjugate_is_identity_witness :
    Quaternion.normSqr { w := 3/5, x := 4/5, y := 0, z := 0 } = 1 ∧
      Quaternion.mul { w := 3/5, x := 4/5, y := 0, z := 0 }
        (Quaternion.conjugate { w := 3/5, x := 4/5, y := 0, z := 0 }) =
        Quaternion.unity :=
  ⟨by norm_num [Quaternion.normSqr, sqr],
   C5_unit_times_conjugate_is_identity _
     (by norm_num [Quaternion.normSqr, sqr])⟩

/-- Claim C6: the Hamilton product is associative for all quaternions. -/
theorem C6_hamilton_product_assoc (q1 q2 q3 : Quaternion) :
    (q1.mul q2).mul q3 = q1.mul (q2.mul q3) := by
  ext <;> simp only [Quaternion.mul] <;> ring

/-- Claim C9: rebuilding a matrix from its own rows with fromVectors in
row mode round-trips exactly, and fromVectors in column mode stacks the
arguments as columns, inverting col (both as a round-trip from the
columns of a matrix and as col applied to the rebuilt matrix). -/
theorem C9_fromVectors_row_col_roundtrip (m : Matrix3x3) (v1 v2 v3 : Vector) :
    Matrix3x3.fromVectors (m.row 0) (m.row 1) (m.row 2) true = m ∧
      Matrix3x3.fromVectors (m.col 0) (m.col 1) (m.col 2) false = m ∧
      (Matrix3x3.fromVectors v1 v2 v3 false).col 0 = v1 ∧
      (Matrix3x3.fromVectors v1 v2 v3 false).col 1 = v2 ∧
      (Matrix3x3.fromVectors v1 v2 v3 false).col 2 = v3 :=
  ⟨rfl, rfl, rfl, rfl, rfl⟩

/-- Claim C10: Vector::isNaN always returns false, even immediately after
setUndefined, because each component is compared against NAN with the
float == operator, which is false for every operand. -/
theorem C10_isNaN_never_detects_nan (v : FVector) :
    v.isNaN = false ∧ (v.setUndefined).isNaN = false := by
  refine ⟨?_, rfl⟩
  obtain ⟨x, y, z⟩ := v
  cases x <;> cases y <;> cases z <;> rfl

/-- Claim C8: a vector whose computed norm is exactly zero is normalised
to a vector all of whose components are non-finite (NaN here, since the
only exact-zero-norm vectors have all components zero and 0/0 is NaN);
nothing traps the zero divisor. -/
theorem C8_normalised_of_zero_norm_nonfinite (v : FVector)
    (h : v.norm = FVal.finite 0) :
    v.normalised.x.isFiniteVal = false ∧
      v.normalised.y.isFiniteVal = false ∧
      v.normalised.z.isFiniteVal = false := by
  obtain ⟨x, y, z⟩ := v
  obtain ⟨hx, hy, hz⟩ := norm_zero_components x y z h
  subst hx hy hz
  unfold FVector.normalised
  rw [h]
  decide

/-- Witness for C8 at the zero vector. -/
theorem C8_normalised_of_zero_norm_nonfinite_witness :
    (FVector.mk (FVal.finite 0) (FVal.finite 0) (FVal.finite 0)).norm =
        FVal.finite 0 ∧
      ((FVector.mk (FVal.finite 0) (FVal.finite 0)
          (FVal.finite 0)).normalised.x.isFiniteVal = false ∧
        (FVector.mk (FVal.finite 0) (FVal.finite 0)
          (FVal.finite 0)).normalised.y.isFiniteVal = false ∧
        (FVector.mk (FVal.finite 0) (FVal.finite 0)
          (FVal.finite 0)).normalised.z.isFiniteVal = false) := by
  have hnorm : (FVector.mk (FVal.finite 0) (FVal.finite 0)
      (FVal.finite 0)).norm = FVal.finite 0 := by
    simp [FVector.norm, FVector.normSqr, FVector.fsqr, FVal.fadd, FVal.fmul,
      FVal.fsqrt, ratSqrt_zero]
  exact ⟨hnorm, C8_normalised_of_zero_norm_nonfinite _ hnorm⟩

/-- Claim C7: converting the identity matrix to a quaternion yields the
identity quaternion w=1, x=y=z=0, and converting the default-constructed
quaternion to a rotation matrix yields the identity matrix exactly. -/
theorem C7_identity_laws :
    Matrix3x3.identity.toQuaternion = Quaternion.unity ∧
      Quaternion.unity.toRotationMatrix = Matrix3x3.identity := by
  constructor
  · have hs : Real.sqrt (1 + Matrix3x3.identity.trace) = 2 := by
      rw [show (1 : ℝ) + Matrix3x3.identity.trace = 4 by
        norm_num [Matrix3x3.identity, Matrix3x3.trace, Matrix3x3.coeff,
          Matrix3x3.members]]
      exact sqrtFour
    have huq : Matrix3x3.identity.toQuaternion =
        Quaternion.normalised Quaternion.unity := by
      unfold Matrix3x3.toQuaternion
      rw [hs]
      norm_num [Matrix3x3.identity, Matrix3x3.coeff, Matrix3x3.members,
        Quaternion.unity]
    rw [huq, normalised_of_normSqr_one _
      (by norm_num [Quaternion.unity, Quaternion.normSqr, sqr])]
  · ext <;>
      norm_num [Quaternion.toRotationMatrix, Quaternion.unity, sqr,
        Matrix3x3.identity]

/-- Claim C1 (evaluation at the failing input): the unit quaternion
q = (0, 1, 0, 0) with w >= 0 is not reproduced, even up to a global sign
flip, by fromMatrix(toRotationMatrix(q)) within 1e-5 per component: the
source's toRotationMatrix lacks the factor of 2 of the formula in the
adjacent commented-out code, so the round trip returns a quaternion with
x-component 0 instead of 1. -/
theorem C1_roundtrip_fails_at_x_axis_half_turn :
    Quaternion.normSqr { w := 0, x := 1, y := 0, z := 0 } = 1 ∧
      (0 : ℝ) ≤ (Quaternion.mk 0 1 0 0).w ∧
      ¬ (approxEq
            (Quaternion.fromMatrix Quaternion.unity
              (Quaternion.toRotationMatrix { w := 0, x := 1, y := 0, z := 0 }))
            { w := 0, x := 1, y := 0, z := 0 } (1e-5) ∨
          approxEq
            (Quaternion.fromMatrix Quaternion.unity
              (Quaternion.toRotationMatrix { w := 0, x := 1, y := 0, z := 0 }))
            (Quaternion.neg { w := 0, x := 1, y := 0, z := 0 }) (1e-5)) := by
  refine ⟨by norm_num [Quaternion.normSqr, sqr], by norm_num, ?_⟩
  have hM : Quaternion.toRotationMatrix { w := 0, x := 1, y := 0, z := 0 } =
      Matrix3x3.mk 1 0 0 0 0 0 0 0 0 := by
    ext <;> norm_num [Quaternion.toRotationMatrix, sqr]
  have hx : (Quaternion.fromMatrix Quaternion.unity
      (Matrix3x3.mk 1 0 0 0 0 0 0 0 0)).x = 0 := by
    unfold Quaternion.fromMatrix
    rw [if_pos (by norm_num [Matrix3x3.trace, Matrix3x3.coeff,
      Matrix3x3.members] : (0 : ℝ) <
        (Matrix3x3.mk 1 0 0 0 0 0 0 0 0).trace)]
    norm_num [Matrix3x3.coeff, Matrix3x3.members]
  rw [hM]
  rintro (h | h)
  · have hcl := h.2.1
    rw [hx] at hcl
    norm_num at hcl
  · have hcl := h.2.1
    rw [hx] at hcl
    norm_num [Quaternion.neg] at hcl

/-- Claim C2 (evaluation at the failing input): on the trace -1 rotation
matrix diag(-1, -1, 1) (a half turn about z), the Shoemake branch picks
i = 2 and the claim calls for the z-component (the vector component at
position i) to receive 0.5*sqrt(coeff(2,2)-coeff(0,0)-coeff(1,1)+1) = 1;
the code instead stores that value in y (Quaternion::set maps index 2 to
y, not z), overwrites w through set(0, ...) and never writes z, so
starting from the default quaternion the result is (w=0, x=0, y=1, z=0)
rather than (0, 0, 0, 1). -/
theorem C2_fromMatrix_branch2_misassigns_components :
    Quaternion.fromMatrix Quaternion.unity
        (Matrix3x3.mk (-1) 0 0 0 (-1) 0 0 0 1) =
      { w := 0, x := 0, y := 1, z := 0 } ∧
      0.5 * Real.sqrt ((Matrix3x3.mk (-1) 0 0 0 (-1) 0 0 0 1).coeff 2 2 -
          (Matrix3x3.mk (-1) 0 0 0 (-1) 0 0 0 1).coeff 0 0 -
          (Matrix3x3.mk (-1) 0 0 0 (-1) 0 0 0 1).coeff 1 1 + 1) = 1 := by
  have harg : (Matrix3x3.mk (-1) 0 0 0 (-1) 0 0 0 1).coeff 2 2 -
      (Matrix3x3.mk (-1) 0 0 0 (-1) 0 0 0 1).coeff 0 0 -
      (Matrix3x3.mk (-1) 0 0 0 (-1) 0 0 0 1).coeff 1 1 + 1 = (4 : ℝ) := by
    norm_num [Matrix3x3.coeff, Matrix3x3.members]
  constructor
  · unfold Quaternion.fromMatrix
    rw [if_neg (by norm_num [Matrix3x3.trace, Matrix3x3.coeff,
      Matrix3x3.members] : ¬ (0 : ℝ) <
        (Matrix3x3.mk (-1) 0 0 0 (-1) 0 0 0 1).trace)]
    norm_num [Matrix3x3.coeff, Matrix3x3.members, harg, sqrtFour,
      Quaternion.set, Quaternion.unity]
  · rw [harg, sqrtFour]
    norm_num

/-- Claim C4 (counterexample): on the orthonormal rotation matrix of a
quarter turn about z, which has trace 1 > 0, Matrix3x3::toQuaternion and
Quaternion::fromMatrix disagree: toQuaternion derives the vector part
from coeff(1,2)-coeff(2,1) and its two mirrors while fromMatrix uses the
opposite differences, so the z-components come out with opposite signs. -/
theorem C4_counterexample_quarter_turn_about_z :
    Matrix3x3.toQuaternion (Matrix3x3.mk 0 (-1) 0 1 0 0 0 0 1) ≠
      Quaternion.fromMatrix Quaternion.unity
        (Matrix3x3.mk 0 (-1) 0 1 0 0 0 0 1) := by
  have h2pos : (0 : ℝ) < Real.sqrt 2 := Real.sqrt_pos.mpr (by norm_num)
  have hnz : Real.sqrt 2 ≠ 0 := ne_of_gt h2pos
  have hmul : Real.sqrt 2 * Real.sqrt 2 = 2 := Real.mul_self_sqrt (by norm_num)
  have hs2 : Real.sqrt
      (1 + (Matrix3x3.mk 0 (-1) 0 1 0 0 0 0 1).trace) = Real.sqrt 2 := by
    norm_num [Matrix3x3.trace, Matrix3x3.coeff, Matrix3x3.members]
  have hs2' : Real.sqrt
      ((Matrix3x3.mk 0 (-1) 0 1 0 0 0 0 1).trace + 1) = Real.sqrt 2 := by
    norm_num [Matrix3x3.trace, Matrix3x3.coeff, Matrix3x3.members]
  have hval : Matrix3x3.toQuaternion (Matrix3x3.mk 0 (-1) 0 1 0 0 0 0 1) =
      { w := Real.sqrt 2 / 2, x := 0, y := 0, z := -(Real.sqrt 2 / 2) } := by
    have huq : Matrix3x3.toQuaternion (Matrix3x3.mk 0 (-1) 0 1 0 0 0 0 1) =
        Quaternion.normalised
          { w := Real.sqrt 2 / 2, x := 0, y := 0,
            z := -(Real.sqrt 2 / 2) } := by
      simp only [Matrix3x3.toQuaternion]
      rw [hs2]
      refine congrArg Quaternion.normalised ?_
      ext
      · show 0.5 * Real.sqrt 2 = Real.sqrt 2 / 2
        ring
      · show ((Matrix3x3.mk 0 (-1) 0 1 0 0 0 0 1).coeff 1 2 -
            (Matrix3x3.mk 0 (-1) 0 1 0 0 0 0 1).coeff 2 1) /
            (0.5 * Real.sqrt 2 * 4) = 0
        norm_num [Matrix3x3.coeff, Matrix3x3.members]
      · show ((Matrix3x3.mk 0 (-1) 0 1 0 0 0 0 1).coeff 2 0 -
            (Matrix3x3.mk 0 (-1) 0 1 0 0 0 0 1).coeff 0 2) /
            (0.5 * Real.sqrt 2 * 4) = 0
        norm_num [Matrix3x3.coeff, Matrix3x3.members]
      · show ((Matrix3x3.mk 0 (-1) 0 1 0 0 0 0 1).coeff 0 1 -
            (Matrix3x3.mk 0 (-1) 0 1 0 0 0 0 1).coeff 1 0) /
            (0.5 * Real.sqrt 2 * 4) = -(Real.sqrt 2 / 2)
        simp only [Matrix3x3.coeff, Matrix3x3.members]
        rw [div_eq_iff (by positivity)]
        nlinarith [hmul]
    rw [huq, normalised_of_normSqr_one _ (by
      simp only [Quaternion.normSqr, sqr]
      nlinarith [hmul])]
  have hval2 : Quaternion.fromMatrix Quaternion.unity
      (Matrix3x3.mk 0 (-1) 0 1 0 0 0 0 1) =
      { w := Real.sqrt 2 / 2, x := 0, y := 0, z := Real.sqrt 2 / 2 } := by
    simp only [Quaternion.fromMatrix]
    rw [if_pos (by norm_num [Matrix3x3.trace, Matrix3x3.coeff,
      Matrix3x3.members] : (0 : ℝ) <
        (Matrix3x3.mk 0 (-1) 0 1 0 0 0 0 1).trace)]
    rw [hs2']
    ext
    · show 0.5 * Real.sqrt 2 = Real.sqrt 2 / 2
      ring
    · show ((Matrix3x3.mk 0 (-1) 0 1 0 0 0 0 1).coeff 2 1 -
          (Matrix3x3.mk 0 (-1) 0 1 0 0 0 0 1).coeff 1 2) *
          (0.5 / Real.sqrt 2) = 0
      norm_num [Matrix3x3.coeff, Matrix3x3.members]
    · show ((Matrix3x3.mk 0 (-1) 0 1 0 0 0 0 1).coeff 0 2 -
          (Matrix3x3.mk 0 (-1) 0 1 0 0 0 0 1).coeff 2 0) *
          (0.5 / Real.sqrt 2) = 0
      norm_num [Matrix3x3.coeff, Matrix3x3.members]
    · show ((Matrix3x3.mk 0 (-1) 0 1 0 0 0 0 1).coeff 1 0 -
          (Matrix3x3.mk 0 (-1) 0 1 0 0 0 0 1).coeff 0 1) *
          (0.5 / Real.sqrt 2) = Real.sqrt 2 / 2
      simp only [Matrix3x3.coeff, Matrix3x3.members]
      rw [mul_div_assoc', div_eq_div_iff hnz (by norm_num : (2 : ℝ) ≠ 0)]
      nlinarith [hmul]
  intro hEq
  rw [hval, hval2] at hEq
  have hz := congrArg Quaternion.z hEq
  simp only at hz
  have : Real.sqrt 2 = 0 := by linarith
  exact hnz this

/-- Claim C4 (amended): for every orthonormal rotation matrix with
positive trace, written as the standard rotation matrix of a unit
quaternion p on the canonical hemisphere, Matrix3x3::toQuaternion agrees
with Quaternion::fromMatrix only up to conjugation: it returns exactly
the conjugate (vector part negated) of the fromMatrix result, in exact
arithmetic. -/
theorem C4_amended_toQuaternion_is_conjugate_of_fromMatrix (p : Quaternion)
    (hunit : p.normSqr = 1) (hw : 0 ≤ p.w)
    (htr : 0 < (specRotationMatrix p).trace) :
    Matrix3x3.toQuaternion (specRotationMatrix p) =
      Quaternion.conjugate
        (Quaternion.fromMatrix Quaternion.unity (specRotationMatrix p)) := by
  have h1 : p.w * p.w + p.x * p.x + p.y * p.y + p.z * p.z = 1 := by
    simpa [Quaternion.normSqr, sqr] using hunit
  have htrace : (specRotationMatrix p).trace = 4 * p.w ^ 2 - 1 := by
    simp only [specRotationMatrix, Matrix3x3.trace, Matrix3x3.coeff,
      Matrix3x3.members, sqr]
    linear_combination (-4 : ℝ) * h1
  have hw' : 0 < p.w := by
    rcases eq_or_lt_of_le hw with h0 | h0
    · exfalso
      rw [htrace] at htr
      nlinarith
    · exact h0
  have hwne : p.w ≠ 0 := ne_of_gt hw'
  have hs : Real.sqrt (1 + (specRotationMatrix p).trace) = 2 * p.w := by
    rw [htrace, show (1 : ℝ) + (4 * p.w ^ 2 - 1) = (2 * p.w) ^ 2 by ring]
    exact Real.sqrt_sq (by positivity)
  have hs' : Real.sqrt ((specRotationMatrix p).trace + 1) = 2 * p.w := by
    rw [htrace, show (4 : ℝ) * p.w ^ 2 - 1 + 1 = (2 * p.w) ^ 2 by ring]
    exact Real.sqrt_sq (by positivity)
  have hLHS : Matrix3x3.toQuaternion (specRotationMatrix p) =
      { w := p.w, x := -p.x, y := -p.y, z := -p.z } := by
    have huq : Matrix3x3.toQuaternion (specRotationMatrix p) =
        Quaternion.normalised
          { w := p.w, x := -p.x, y := -p.y, z := -p.z } := by
      simp only [Matrix3x3.toQuaternion]
      rw [hs]
      refine congrArg Quaternion.normalised ?_
      ext
      · show 0.5 * (2 * p.w) = p.w
        ring
      · show ((specRotationMatrix p).coeff 1 2 -
            (specRotationMatrix p).coeff 2 1) / (0.5 * (2 * p.w) * 4) = -p.x
        simp only [specRotationMatrix, Matrix3x3.coeff, Matrix3x3.members]
        field_simp
        ring
      · show ((specRotationMatrix p).coeff 2 0 -
            (specRotationMatrix p).coeff 0 2) / (0.5 * (2 * p.w) * 4) = -p.y
        simp only [specRotationMatrix, Matrix3x3.coeff, Matrix3x3.members]
        field_simp
        ring
      · show ((specRotationMatrix p).coeff 0 1 -
            (specRotationMatrix p).coeff 1 0) / (0.5 * (2 * p.w) * 4) = -p.z
        simp only [specRotationMatrix, Matrix3x3.coeff, Matrix3x3.members]
        field_simp
        ring
    rw [huq, normalised_of_normSqr_one _ (by
      simp only [Quaternion.normSqr, sqr]
      linear_combination h1)]
  have hRHS : Quaternion.fromMatrix Quaternion.unity (specRotationMatrix p) =
      { w := p.w, x := p.x, y := p.y, z := p.z } := by
    simp only [Quaternion.fromMatrix]
    rw [if_pos htr, hs']
    ext
    · show 0.5 * (2 * p.w) = p.w
      ring
    · show ((specRotationMatrix p).coeff 2 1 -
          (specRotationMatrix p).coeff 1 2) * (0.5 / (2 * p.w)) = p.x
      simp only [specRotationMatrix, Matrix3x3.coeff, Matrix3x3.members]
      field_simp
      ring
    · show ((specRotationMatrix p).coeff 0 2 -
          (specRotationMatrix p).coeff 2 0) * (0.5 / (2 * p.w)) = p.y
      simp only [specRotationMatrix, Matrix3x3.coeff, Matrix3x3.members]
      field_simp
      ring
    · show ((specRotationMatrix p).coeff 1 0 -
          (specRotationMatrix p).coeff 0 1) * (0.5 / (2 * p.w)) = p.z
      simp only [specRotationMatrix, Matrix3x3.coeff, Matrix3x3.members]
      field_simp
      ring
  rw [hLHS, hRHS]
  rfl

/-- Witness for the amended C4 at the unit quaternion (3/5, 4/5, 0, 0),
whose rotation matrix has trace 11/25 > 0. -/
theorem C4_amended_witness :
    Quaternion.normSqr { w := 3/5, x := 4/5, y := 0, z := 0 } = 1 ∧
      (0 : ℝ) ≤ (Quaternion.mk (3/5) (4/5) 0 0).w ∧
      0 < (specRotationMatrix { w := 3/5, x := 4/5, y := 0, z := 0 }).trace ∧
      Matrix3x3.toQuaternion
          (specRotationMatrix { w := 3/5, x := 4/5, y := 0, z := 0 }) =
        Quaternion.conjugate
          (Quaternion.fromMatrix Quaternion.unity
            (specRotationMatrix { w := 3/5, x := 4/5, y := 0, z := 0 })) :=
  ⟨by norm_num [Quaternion.normSqr, sqr], by norm_num,
   by norm_num [specRotationMatrix, Matrix3x3.trace, Matrix3x3.coeff,
     Matrix3x3.members, sqr],
   C4_amended_toQuaternion_is_conjugate_of_fromMatrix _
     (by norm_num [Quaternion.normSqr, sqr]) (by norm_num)
     (by norm_num [specRotationMatrix, Matrix3x3.trace, Matrix3x3.coeff,
       Matrix3x3.members, sqr])⟩

end ArTypes
